import Mathlib

/-!
Verification of the srtla_rec receiver (OpenIRL/srtla, src/main.cpp) against its
natural-language specification.

The C++ source is shallowly embedded: every mutable handler becomes a pure
function from the state it reads to the state it writes plus the list of
packets it sends.  Machine integers are modelled as Nat / Int (the code never
relies on wrap-around in the verified paths); C doubles are modelled as exact
rationals.  A struct sockaddr is modelled as an abstract value with decidable
equality (const_time_cmp of equal-length buffers returns 0 exactly on byte
equality); pointer identity of groups and connections inside the registry is
modelled by list indices.
-/

namespace Srtla

/-- Constants from main.h. -/
def MAX_CONNS_PER_GROUP : Nat := 16

/-- Maximum number of groups in the registry (main.h). -/
def MAX_GROUPS : Nat := 200

/-- Group timeout in seconds (main.h). -/
def GROUP_TIMEOUT : Int := 4

/-- Connection timeout in seconds (main.h). -/
def CONN_TIMEOUT : Int := 4

/-- Number of sequence numbers batched into one SRTLA ACK (main.h). -/
def RECV_ACK_INT : Nat := 10

/-- Modelled from the spec: wire opcode values inherited from the SRTLA
protocol (common.h is not part of src/).  Only SRTLA_TYPE_ACK's value enters a
verified statement (the ACK packet's leading word). -/
def SRTLA_TYPE_KEEPALIVE : Nat := 0x9000

/-- Modelled from the spec: the SRTLA ACK opcode (common.h). -/
def SRTLA_TYPE_ACK : Nat := 0x9100

/-- Modelled from the spec: minimal SRT header length in bytes (common.h). -/
def SRT_MIN_LEN : Nat := 16

/-- Modelled from the spec: the SRT control subtype for ACK packets. -/
def SRT_TYPE_ACK : Nat := 2

/-- Abstract peer address (one struct sockaddr).  const_time_cmp equality of the
raw bytes is modelled as decidable equality of this value. -/
abbrev Addr := Nat

/-- Per-uplink connection state: struct srtla_conn together with the selector
fields used by main.cpp (last_rcvd, recv ring, byte counters, capacity
estimator and health state). -/
structure SrtlaConn where
  addr : Addr
  last_rcvd : Int
  recv_idx : Nat
  recv_log : List Nat
  bytes_sent : Nat
  bytes_this_period : Nat
  max_bytes_per_period : Nat
  last_capacity_update : Int
  health_status : Int
  successive_failures : Nat
  recovery_attempts : Nat
deriving Repr, DecidableEq

/-- The srtla_conn constructor: addr and last_rcvd from the arguments, the
receive ring zero-filled, counters zeroed, last_capacity_update stamped. -/
def SrtlaConn.mk0 (a : Addr) (ts : Int) : SrtlaConn :=
  { addr := a
    last_rcvd := ts
    recv_idx := 0
    recv_log := List.replicate RECV_ACK_INT 0
    bytes_sent := 0
    bytes_this_period := 0
    max_bytes_per_period := 0
    last_capacity_update := ts
    health_status := 0
    successive_failures := 0
    recovery_attempts := 0 }

/-- Group state: struct srtla_conn_group.  The 32-byte id is modelled as the
pair of its client half and its server half; srt_sock only records whether the
downstream socket exists (its fd value never matters to the verified claims). -/
structure SrtlaConnGroup where
  id : Nat × Nat
  conns : List SrtlaConn
  created_at : Int
  srt_sock : Bool
  last_addr : Addr
deriving Repr, DecidableEq

/-- The process-wide registry: conn_groups. -/
abbrev Registry := List SrtlaConnGroup

/-- Big-endian byte serialization of a 32-bit word, as produced by htobe32. -/
def be32 (n : Nat) : List Nat :=
  [n / 2 ^ 24 % 256, n / 2 ^ 16 % 256, n / 2 ^ 8 % 256, n % 256]

/-- Wire bytes of one srtla_ack_pkt: the 4-byte type field
htobe32 (SRTLA_TYPE_ACK << 16) followed by the ten logged sequence numbers,
each in network byte order (the ring stores htobe32 of the sequence number and
is copied into the packet verbatim). -/
def ackPacketBytes (log : List Nat) : List Nat :=
  be32 (SRTLA_TYPE_ACK * 2 ^ 16 % 2 ^ 32) ++ log.flatMap be32

/-- Embedding of register_packet (main.cpp:800): store the sequence number at
recv_idx and post-increment; once the ring holds RECV_ACK_INT entries, build
one SRTLA ACK, send it to the connection's address and reset recv_idx to 0.
The returned option is the packet sent, with its destination. -/
def register_packet (c : SrtlaConn) (sn : Nat) : SrtlaConn × Option (Addr × List Nat) :=
  let log := c.recv_log.set c.recv_idx sn
  let idx := c.recv_idx + 1
  if idx = RECV_ACK_INT then
    ({ c with recv_log := log, recv_idx := 0 }, some (c.addr, ackPacketBytes log))
  else
    ({ c with recv_log := log, recv_idx := idx }, none)

/-- Feed a list of received SRT data sequence numbers through register_packet,
counting the SRTLA ACKs emitted. -/
def registerSeq (c : SrtlaConn) : List Nat → SrtlaConn × Nat
  | [] => (c, 0)
  | sn :: rest =>
      let (c1, ack) := register_packet c sn
      let (c2, k) := registerSeq c1 rest
      (c2, (if ack.isSome then 1 else 0) + k)


theorem length_flatMap_be32 (l : List Nat) : (l.flatMap be32).length = 4 * l.length := by
  induction l with
  | nil => rfl
  | cons a t ih =>
      simp only [List.flatMap_cons, List.length_append, ih, be32, List.length_cons,
        List.length_nil]
      omega

theorem registerSeq_count (sns : List Nat) :
    ∀ c : SrtlaConn, c.recv_idx < RECV_ACK_INT →
      (registerSeq c sns).2 = (c.recv_idx + sns.length) / RECV_ACK_INT ∧
      (registerSeq c sns).1.recv_idx = (c.recv_idx + sns.length) % RECV_ACK_INT := by
  induction sns with
  | nil =>
      intro c h
      simp only [registerSeq, List.length_nil, Nat.add_zero]
      constructor
      · exact (Nat.div_eq_of_lt h).symm
      · exact (Nat.mod_eq_of_lt h).symm
  | cons sn rest ih =>
      intro c h
      simp only [RECV_ACK_INT] at *
      by_cases hc : c.recv_idx + 1 = 10
      · simp only [registerSeq, register_packet, RECV_ACK_INT, hc, eq_self_iff_true,
          ite_true, Option.isSome_some, List.length_cons]
        have h0 : (0 : Nat) < 10 := by omega
        obtain ⟨h1, h2⟩ :=
          ih { c with recv_log := c.recv_log.set c.recv_idx sn, recv_idx := 0 } h0
        simp only at h1 h2
        refine ⟨?_, ?_⟩
        · rw [h1]; omega
        · rw [h2]; omega
      · simp only [registerSeq, register_packet, RECV_ACK_INT, hc, ite_false,
          Option.isSome_none, Bool.false_eq_true, List.length_cons]
        have hlt : c.recv_idx + 1 < 10 := by omega
        obtain ⟨h1, h2⟩ :=
          ih { c with recv_log := c.recv_log.set c.recv_idx sn, recv_idx := c.recv_idx + 1 } hlt
        simp only at h1 h2
        refine ⟨?_, ?_⟩
        · rw [h1]; omega
        · rw [h2]; omega

/-- Behaviour claimed for register_packet, as one predicate: the sequence
number lands in the ring at recv_idx; an ACK is emitted exactly when the ring
fills, it is 44 bytes of the claimed shape addressed to the connection, and
recv_idx is reset; recv_idx stays within [0, RECV_ACK_INT); over any packet
sequence the number of ACKs is one per RECV_ACK_INT data packets. -/
def AckBatchingSpec (c : SrtlaConn) (sn : Nat) (sns : List Nat) : Prop :=
  (register_packet c sn).1.recv_idx < RECV_ACK_INT ∧
  (register_packet c sn).1.recv_log = c.recv_log.set c.recv_idx sn ∧
  (register_packet c sn).2 =
    (if c.recv_idx + 1 = RECV_ACK_INT
     then some (c.addr, ackPacketBytes (c.recv_log.set c.recv_idx sn))
     else none) ∧
  (∀ a pkt, (register_packet c sn).2 = some (a, pkt) →
      a = c.addr ∧ pkt.length = 44 ∧ (register_packet c sn).1.recv_idx = 0 ∧
      pkt = be32 (SRTLA_TYPE_ACK * 2 ^ 16 % 2 ^ 32) ++
        (c.recv_log.set c.recv_idx sn).flatMap be32) ∧
  (registerSeq c sns).2 = (c.recv_idx + sns.length) / RECV_ACK_INT

/-- C1: per connection, each received SRT data sequence number is appended to
recv_log at recv_idx; when recv_idx reaches RECV_ACK_INT = 10 a single 44-byte
SRTLA ACK (htobe32 (SRTLA_TYPE_ACK << 16) followed by the ten logged sequence
numbers in network order) is sent to the connection's address and recv_idx is
reset to 0; recv_idx stays in [0, 10) after every call, and a sequence of
received data packets yields exactly one ACK per ten packets. -/
theorem register_packet_ack_batching (c : SrtlaConn) (sn : Nat) (sns : List Nat)
    (hidx : c.recv_idx < RECV_ACK_INT) (hlog : c.recv_log.length = RECV_ACK_INT) :
    AckBatchingSpec c sn sns := by
  have hcount := (registerSeq_count sns c hidx).1
  refine ⟨?_, ?_, ?_, ?_, hcount⟩
  · simp only [register_packet]
    by_cases hc : c.recv_idx + 1 = RECV_ACK_INT
    · rw [if_pos hc]; simp only [RECV_ACK_INT]; omega
    · rw [if_neg hc]; simp only [RECV_ACK_INT] at *; omega
  · simp only [register_packet]
    by_cases hc : c.recv_idx + 1 = RECV_ACK_INT
    · rw [if_pos hc]
    · rw [if_neg hc]
  · simp only [register_packet]
    by_cases hc : c.recv_idx + 1 = RECV_ACK_INT
    · rw [if_pos hc, if_pos hc]
    · rw [if_neg hc, if_neg hc]
  · intro a pkt hsome
    simp only [register_packet] at hsome ⊢
    by_cases hc : c.recv_idx + 1 = RECV_ACK_INT
    · rw [if_pos hc] at hsome
      simp only [Option.some.injEq, Prod.mk.injEq] at hsome
      rcases hsome with ⟨ha, hp⟩
      refine ⟨ha.symm, ?_, ?_, ?_⟩
      · rw [← hp]
        simp only [ackPacketBytes, List.length_append, length_flatMap_be32,
          List.length_set, hlog, be32, List.length_cons, List.length_nil, RECV_ACK_INT]
      · rw [if_pos hc]
      · rw [← hp]; rfl
    · rw [if_neg hc] at hsome
      exact absurd hsome (by simp)

/-- Witness for C1 at a freshly constructed connection and twenty-three data
packets. -/
theorem register_packet_ack_batching_witness :
    (SrtlaConn.mk0 3 0).recv_idx < RECV_ACK_INT ∧
    (SrtlaConn.mk0 3 0).recv_log.length = RECV_ACK_INT ∧
    AckBatchingSpec (SrtlaConn.mk0 3 0) 7 (List.range 23) :=
  ⟨by decide, by decide,
    register_packet_ack_batching (SrtlaConn.mk0 3 0) 7 (List.range 23)
      (by decide) (by decide)⟩


/-- Health tracking from track_connection_health (main.cpp:260): past half the
timeout, stamp the first symptom; after more than 5 s symptomatic, count a
failure and restamp; otherwise reset both indicators. -/
def track_connection_health (c : SrtlaConn) (t : Int) : SrtlaConn :=
  if t - c.last_rcvd > CONN_TIMEOUT / 2 then
    if c.health_status = 0 then
      { c with health_status := t, successive_failures := 0 }
    else if t - c.health_status > 5 then
      { c with successive_failures := c.successive_failures + 1, health_status := t }
    else c
  else
    { c with health_status := 0, successive_failures := 0 }

/-- Capacity estimate update from update_connection_capacity_estimate
(main.cpp:231).  The inactivity shrink multiplies by the double 0.8 and
truncates on assignment; it is modelled as exact multiplication by 4/5 with
floor. -/
def update_connection_capacity_estimate (c : SrtlaConn) (t : Int) : SrtlaConn :=
  if 0 < c.bytes_this_period then
    let c1 :=
      if c.max_bytes_per_period < c.bytes_this_period then
        { c with max_bytes_per_period := c.bytes_this_period, last_capacity_update := t }
      else c
    { c1 with bytes_this_period := 0 }
  else if 0 < c.max_bytes_per_period ∧ t - c.last_capacity_update > 60 then
    { c with max_bytes_per_period := c.max_bytes_per_period * 4 / 5 }
  else c

/-- One connection's share of the 30-second maintenance loop in
update_connection_capacity (main.cpp:212): capacity estimate, halving of
bytes_sent, then health tracking. -/
def maintainConn (c : SrtlaConn) (t : Int) : SrtlaConn :=
  let c1 := update_connection_capacity_estimate c t
  track_connection_health { c1 with bytes_sent := c1.bytes_sent / 2 } t

/-- update_connection_capacity (main.cpp:199): a no-op within 30 s of the last
decay, otherwise the per-connection maintenance plus the new decay stamp. -/
def update_connection_capacity (conns : List SrtlaConn) (t last_decay : Int) :
    List SrtlaConn × Int :=
  if t - last_decay ≤ 30 then (conns, last_decay)
  else (conns.map (maintainConn · t), t)

/-- The active predicate of get_active_connections: within the timeout and
fewer than 3 successive failures. -/
def isActive (c : SrtlaConn) (t : Int) : Prop :=
  c.last_rcvd + CONN_TIMEOUT ≥ t ∧ c.successive_failures < 3

instance (c : SrtlaConn) (t : Int) : Decidable (isActive c t) := by
  unfold isActive
  exact inferInstance

/-- get_active_connections (main.cpp:282): collect the active connections; as
a side effect, on a wall-clock second divisible by 30 an excluded connection
(3 or more successive failures) is clamped down to 2 failures.  Returns the
active list and the updated connection list of the group. -/
def get_active_connections : List SrtlaConn → Int → List SrtlaConn × List SrtlaConn
  | [], _ => ([], [])
  | c :: rest, t =>
      let (act, upd) := get_active_connections rest t
      if isActive c t then (c :: act, c :: upd)
      else if 3 ≤ c.successive_failures ∧ t % 30 = 0 then
        (act, { c with successive_failures := 2 } :: upd)
      else (act, c :: upd)

/-- get_recovery_connections (main.cpp:316): connections with between 1 and 4
recovery attempts. -/
def get_recovery_connections (conns : List SrtlaConn) : List SrtlaConn :=
  conns.filter (fun c => decide (0 < c.recovery_attempts ∧ c.recovery_attempts < 5))

/-- select_fallback_connection (main.cpp:384): std::max_element over last_rcvd
(the leftmost maximum, since the running best is replaced only on a strictly
larger value). -/
def select_fallback_connection (conns : List SrtlaConn) : Option SrtlaConn :=
  match conns with
  | [] => none
  | c :: rest =>
      some (rest.foldl (fun best x => if best.last_rcvd < x.last_rcvd then x else best) c)

/-- The time factor of calculate_conn_utilization (main.cpp:354): the elapsed
share of the 30-second period, floored at 0.01.  C doubles are modelled as
exact rationals. -/
def timeFactor (t last_decay : Int) : ℚ :=
  let tf : ℚ := min 30 ((t - last_decay : Int) : ℚ) / 30
  if tf < 1 / 100 then 1 / 100 else tf

/-- Per-connection utilization from calculate_conn_utilization (main.cpp:358):
current-period bytes scaled to a full period over the capacity estimate,
capped at 2.0; zero when there is no capacity estimate. -/
def connUtilization (c : SrtlaConn) (tf : ℚ) : ℚ :=
  if 0 < c.max_bytes_per_period then
    let u := ((c.bytes_this_period : ℚ) / tf) / (c.max_bytes_per_period : ℚ)
    if 2 < u then 2 else u
  else 0

/-- calculate_conn_utilization (main.cpp:337): utilization of every candidate
connection, paired with it. -/
def calculate_conn_utilization (activeConns : List SrtlaConn) (t last_decay : Int) :
    List (SrtlaConn × ℚ) :=
  if activeConns.isEmpty then []
  else activeConns.map (fun c => (c, connUtilization c (timeFactor t last_decay)))

/-- Ordering used to model the std::sort call of
select_based_on_available_capacity: ascending utilization.  std::sort leaves
the order of tied elements unspecified, so any utilization-ascending
permutation is a faithful model. -/
def uLE (a b : SrtlaConn × ℚ) : Prop := a.2 ≤ b.2

instance : DecidableRel uLE := fun a b => by
  unfold uLE
  exact inferInstance

instance : IsTotal (SrtlaConn × ℚ) uLE := ⟨fun a b => le_total a.2 b.2⟩

instance : IsTrans (SrtlaConn × ℚ) uLE := ⟨fun _ _ _ h1 h2 => le_trans h1 h2⟩

/-- select_based_on_available_capacity (main.cpp:465): sort by utilization
ascending and round-robin over the less-utilized half (at least one). -/
def select_based_on_available_capacity (cu : List (SrtlaConn × ℚ)) (rr : Nat) :
    Option SrtlaConn :=
  let sorted := List.insertionSort uLE cu
  let available := cu.length / 2
  let available := if available = 0 then 1 else available
  (sorted[rr % available]?).map Prod.fst

/-- std::min_element over bytes_sent (the leftmost minimum). -/
def minByBytesSent (l : List SrtlaConn) : Option SrtlaConn :=
  match l with
  | [] => none
  | c :: rest =>
      some (rest.foldl (fun best x => if x.bytes_sent < best.bytes_sent then x else best) c)

/-- The in-place clearing of recovery_attempts applied to the selected
connection at the end of select_connection_based_on_load (main.cpp:455). -/
def resetRecovery (c : SrtlaConn) : SrtlaConn :=
  if 0 < c.recovery_attempts then { c with recovery_attempts := 0 } else c

/-- select_connection_based_on_load (main.cpp:406): bump the round-robin
counter; under capacity pressure (any utilization above 0.7) rotate over the
less-utilized half, otherwise alternate least-loaded (every third call) with
plain round-robin; clear the chosen connection's recovery counter.  Returns
the chosen connection and the new counter. -/
def select_connection_based_on_load (activeConns : List SrtlaConn) (t last_decay : Int)
    (rr : Nat) : Option SrtlaConn × Nat :=
  if activeConns.isEmpty then (none, rr)
  else
    let rr1 := rr + 1
    let leastUsed := minByBytesSent activeConns
    let cu := calculate_conn_utilization activeConns t last_decay
    let anyAtCapacity := cu.any (fun p => decide ((7 : ℚ) / 10 < p.2))
    let selected :=
      if anyAtCapacity ∧ ¬ cu.isEmpty then select_based_on_available_capacity cu rr1
      else if rr1 % 3 = 0 ∧ ¬ activeConns.isEmpty then leastUsed
      else activeConns[rr1 % activeConns.length]?
    (selected.map resetRecovery, rr1)

/-- Writing the selected connection's new state back into the group, modelling
the in-place update through the shared pointer; connections are identified by
their peer address. -/
def applySel (conns : List SrtlaConn) : Option SrtlaConn → List SrtlaConn
  | none => conns
  | some s => conns.map (fun c => if c.addr = s.addr then s else c)

/-- select_best_conn (main.cpp:135): periodic capacity maintenance, then the
staged choice of active, recovery or fallback connections.  Takes and returns
the globals it uses (last decay time and round-robin counter) together with
the group's updated connection list. -/
def select_best_conn (conns : List SrtlaConn) (t last_decay : Int) (rr : Nat) :
    Option SrtlaConn × List SrtlaConn × Int × Nat :=
  if conns.isEmpty then (none, conns, last_decay, rr)
  else
    let m := update_connection_capacity conns t last_decay
    let a := get_active_connections m.1 t
    let cands := if a.1.isEmpty then get_recovery_connections a.2 else a.1
    if cands.isEmpty then (select_fallback_connection a.2, a.2, m.2, rr)
    else
      let s := select_connection_based_on_load cands t m.2 rr
      (s.1, applySel a.2 s.1, m.2, s.2)

theorem foldl_pick_mem {α : Type} (f : α → α → α)
    (hf : ∀ b x, f b x = b ∨ f b x = x) :
    ∀ (l : List α) (b : α), l.foldl f b ∈ b :: l := by
  intro l
  induction l with
  | nil => intro b; simp
  | cons x xs ih =>
      intro b
      rw [List.foldl_cons]
      rcases hf b x with he | he
      · rw [he]
        have h := ih b
        simp only [List.mem_cons] at h ⊢
        tauto
      · rw [he]
        have h := ih x
        simp only [List.mem_cons] at h ⊢
        tauto

theorem foldl_max_lastRcvd (l : List SrtlaConn) :
    ∀ b : SrtlaConn,
      b.last_rcvd ≤
        (l.foldl (fun best x => if best.last_rcvd < x.last_rcvd then x else best) b).last_rcvd ∧
      ∀ x ∈ l, x.last_rcvd ≤
        (l.foldl (fun best x => if best.last_rcvd < x.last_rcvd then x else best) b).last_rcvd := by
  induction l with
  | nil => intro b; simp
  | cons y ys ih =>
      intro b
      rw [List.foldl_cons]
      by_cases hby : b.last_rcvd < y.last_rcvd
      · rw [if_pos hby]
        obtain ⟨h1, h2⟩ := ih y
        refine ⟨le_trans hby.le h1, ?_⟩
        intro x hx
        rcases List.mem_cons.mp hx with rfl | hx
        · exact h1
        · exact h2 x hx
      · rw [if_neg hby]
        obtain ⟨h1, h2⟩ := ih b
        refine ⟨h1, ?_⟩
        intro x hx
        rcases List.mem_cons.mp hx with rfl | hx
        · exact le_trans (le_of_not_lt hby) h1
        · exact h2 x hx

theorem select_fallback_spec (conns : List SrtlaConn) (hne : conns ≠ []) :
    ∃ s, select_fallback_connection conns = some s ∧ s ∈ conns ∧
      ∀ c ∈ conns, c.last_rcvd ≤ s.last_rcvd := by
  obtain ⟨x, xs, rfl⟩ := List.exists_cons_of_ne_nil hne
  refine ⟨_, rfl, ?_, ?_⟩
  · exact foldl_pick_mem _
      (fun b y => by
        by_cases h : b.last_rcvd < y.last_rcvd
        · exact Or.inr (if_pos h)
        · exact Or.inl (if_neg h)) xs x
  · intro c hc
    obtain ⟨h1, h2⟩ := foldl_max_lastRcvd xs x
    rcases List.mem_cons.mp hc with rfl | hc
    · exact h1
    · exact h2 c hc

theorem mem_active_isActive (conns : List SrtlaConn) (t : Int) :
    ∀ c ∈ (get_active_connections conns t).1, isActive c t := by
  induction conns with
  | nil => intro c hc; simp [get_active_connections] at hc
  | cons x xs ih =>
      intro c hc
      simp only [get_active_connections] at hc
      by_cases hx : isActive x t
      · rw [if_pos hx] at hc
        rcases List.mem_cons.mp hc with rfl | hc
        · exact hx
        · exact ih c hc
      · rw [if_neg hx] at hc
        by_cases h2 : 3 ≤ x.successive_failures ∧ t % 30 = 0
        · rw [if_pos h2] at hc; exact ih c hc
        · rw [if_neg h2] at hc; exact ih c hc

theorem isActive_mem_active (conns : List SrtlaConn) (t : Int) (c : SrtlaConn)
    (hc : c ∈ conns) (ha : isActive c t) : c ∈ (get_active_connections conns t).1 := by
  induction conns with
  | nil => simp at hc
  | cons x xs ih =>
      simp only [get_active_connections]
      rcases List.mem_cons.mp hc with rfl | hc
      · rw [if_pos ha]; exact List.mem_cons_self _ _
      · by_cases hx : isActive x t
        · rw [if_pos hx]; exact List.mem_cons_of_mem _ (ih hc)
        · rw [if_neg hx]
          by_cases h2 : 3 ≤ x.successive_failures ∧ t % 30 = 0
          · rw [if_pos h2]; exact ih hc
          · rw [if_neg h2]; exact ih hc

theorem get_active_snd_length (conns : List SrtlaConn) (t : Int) :
    (get_active_connections conns t).2.length = conns.length := by
  induction conns with
  | nil => rfl
  | cons x xs ih =>
      simp only [get_active_connections]
      by_cases hx : isActive x t
      · rw [if_pos hx]; simp [ih]
      · rw [if_neg hx]
        by_cases h2 : 3 ≤ x.successive_failures ∧ t % 30 = 0
        · rw [if_pos h2]; simp [ih]
        · rw [if_neg h2]; simp [ih]

theorem update_capacity_length (conns : List SrtlaConn) (t ld : Int) :
    (update_connection_capacity conns t ld).1.length = conns.length := by
  unfold update_connection_capacity
  split
  · rfl
  · simp

theorem isActive_resetRecovery (c : SrtlaConn) (t : Int) :
    isActive (resetRecovery c) t ↔ isActive c t := by
  unfold resetRecovery isActive
  split <;> simp

theorem select_capacity_mem (cu : List (SrtlaConn × ℚ)) (rr : Nat) (hne : cu ≠ []) :
    ∃ p : SrtlaConn × ℚ,
      (List.insertionSort uLE cu)[rr % (if cu.length / 2 = 0 then 1 else cu.length / 2)]? =
        some p ∧
      select_based_on_available_capacity cu rr = some p.1 := by
  have hlen : cu.length ≠ 0 := fun h => hne (List.eq_nil_of_length_eq_zero h)
  have hkpos : 0 < (if cu.length / 2 = 0 then 1 else cu.length / 2) := by
    split <;> omega
  have hkle : (if cu.length / 2 = 0 then 1 else cu.length / 2) ≤ cu.length := by
    split <;> omega
  have hidx : rr % (if cu.length / 2 = 0 then 1 else cu.length / 2) <
      (List.insertionSort uLE cu).length := by
    rw [List.length_insertionSort]
    exact lt_of_lt_of_le (Nat.mod_lt _ hkpos) hkle
  refine ⟨(List.insertionSort uLE cu)[rr %
      (if cu.length / 2 = 0 then 1 else cu.length / 2)], List.getElem?_eq_getElem hidx, ?_⟩
  unfold select_based_on_available_capacity
  simp only []
  rw [List.getElem?_eq_getElem hidx]
  rfl

theorem mem_of_getElemQ {α : Type} {l : List α} {i : Nat} {a : α}
    (h : l[i]? = some a) : a ∈ l := by
  obtain ⟨hlt, rfl⟩ := List.getElem?_eq_some.mp h
  exact List.getElem_mem hlt

theorem calc_utilization_cons (x : SrtlaConn) (xs : List SrtlaConn) (t ld : Int) :
    calculate_conn_utilization (x :: xs) t ld =
      (x :: xs).map (fun c => (c, connUtilization c (timeFactor t ld))) := by
  simp [calculate_conn_utilization]

theorem select_load_some (cands : List SrtlaConn) (t ld : Int) (rr : Nat)
    (hne : cands ≠ []) :
    ∃ c ∈ cands,
      select_connection_based_on_load cands t ld rr = (some (resetRecovery c), rr + 1) := by
  obtain ⟨x, xs, rfl⟩ := List.exists_cons_of_ne_nil hne
  have hxe : ¬((x :: xs).isEmpty = true) := by simp
  unfold select_connection_based_on_load
  rw [if_neg hxe]
  simp only []
  by_cases h1 :
      ((calculate_conn_utilization (x :: xs) t ld).any
        fun p => decide ((7 : ℚ) / 10 < p.2)) = true ∧
      ¬((calculate_conn_utilization (x :: xs) t ld).isEmpty = true)
  · rw [if_pos h1]
    have hcune : calculate_conn_utilization (x :: xs) t ld ≠ [] := by
      intro h
      rw [h] at h1
      exact h1.2 rfl
    obtain ⟨p, hpq, hsel⟩ := select_capacity_mem (calculate_conn_utilization (x :: xs) t ld)
      (rr + 1) hcune
    rw [hsel]
    have hpmem : p ∈ calculate_conn_utilization (x :: xs) t ld :=
      (List.mem_insertionSort uLE).mp (mem_of_getElemQ hpq)
    rw [calc_utilization_cons] at hpmem
    obtain ⟨c, hc, hpc⟩ := List.mem_map.mp hpmem
    refine ⟨c, hc, ?_⟩
    rw [← hpc]
    rfl
  · rw [if_neg h1]
    by_cases h2 : (rr + 1) % 3 = 0 ∧ ¬((x :: xs).isEmpty = true)
    · rw [if_pos h2]
      refine ⟨xs.foldl (fun best y => if y.bytes_sent < best.bytes_sent then y else best) x,
        ?_, ?_⟩
      · exact foldl_pick_mem _
          (fun b y => by
            by_cases h : y.bytes_sent < b.bytes_sent
            · exact Or.inr (if_pos h)
            · exact Or.inl (if_neg h)) xs x
      · rfl
    · rw [if_neg h2]
      have hidx : (rr + 1) % (x :: xs).length < (x :: xs).length :=
        Nat.mod_lt _ (by simp)
      rw [List.getElem?_eq_getElem hidx]
      exact ⟨_, List.getElem_mem hidx, rfl⟩

/-- C2: on every selector invocation, if any connection of the maintained
group satisfies the active predicate (last_rcvd + CONN_TIMEOUT at or past now,
fewer than 3 successive failures), the connection the selector returns
satisfies that predicate. -/
theorem select_best_conn_returns_active (conns : List SrtlaConn) (t ld : Int) (rr : Nat)
    (h : ∃ c ∈ (update_connection_capacity conns t ld).1, isActive c t) :
    ∃ s, (select_best_conn conns t ld rr).1 = some s ∧ isActive s t := by
  obtain ⟨c, hc, hca⟩ := h
  have hconns : ¬(conns.isEmpty = true) := by
    intro he
    rw [List.isEmpty_iff] at he
    subst he
    unfold update_connection_capacity at hc
    split at hc <;> simp at hc
  have hact : c ∈ (get_active_connections (update_connection_capacity conns t ld).1 t).1 :=
    isActive_mem_active _ _ _ hc hca
  have hane : (get_active_connections (update_connection_capacity conns t ld).1 t).1 ≠ [] :=
    List.ne_nil_of_mem hact
  have hie : (get_active_connections (update_connection_capacity conns t ld).1 t).1.isEmpty
      = false := by
    simp [List.isEmpty_iff, hane]
  unfold select_best_conn
  rw [if_neg hconns]
  simp only [hie, Bool.false_eq_true, ite_false]
  obtain ⟨d, hd, heq⟩ :=
    select_load_some _ t (update_connection_capacity conns t ld).2 rr hane
  rw [heq]
  exact ⟨resetRecovery d, rfl,
    (isActive_resetRecovery d t).mpr (mem_active_isActive _ _ d hd)⟩

/-- Fresh connection used by concrete instantiations. -/
def connFresh : SrtlaConn := SrtlaConn.mk0 1 100

/-- Stale connection (long past every timeout) used by concrete
instantiations. -/
def connStale : SrtlaConn := SrtlaConn.mk0 2 (-100)

/-- Witness for C2 at a one-connection group whose connection is active. -/
theorem select_best_conn_returns_active_witness :
    (∃ c ∈ (update_connection_capacity [connFresh] 100 100).1, isActive c 100) ∧
    ∃ s, (select_best_conn [connFresh] 100 100 7).1 = some s ∧ isActive s 100 :=
  ⟨⟨connFresh, by decide, by decide⟩,
    select_best_conn_returns_active [connFresh] 100 100 7
      ⟨connFresh, by decide, by decide⟩⟩

/-- C5: when the maintained group has neither active nor recovery candidates,
the selector falls back to the connection with the largest last_rcvd; it
returns nothing exactly when the group has no connections at all. -/
theorem select_best_conn_fallback_spec (conns : List SrtlaConn) (t ld : Int) (rr : Nat) :
    (conns ≠ [] →
      (get_active_connections (update_connection_capacity conns t ld).1 t).1 = [] →
      get_recovery_connections
        (get_active_connections (update_connection_capacity conns t ld).1 t).2 = [] →
      ∃ s, (select_best_conn conns t ld rr).1 = some s ∧
        s ∈ (get_active_connections (update_connection_capacity conns t ld).1 t).2 ∧
        ∀ c ∈ (get_active_connections (update_connection_capacity conns t ld).1 t).2,
          c.last_rcvd ≤ s.last_rcvd) ∧
    ((select_best_conn conns t ld rr).1 = none ↔ conns = []) := by
  constructor
  · intro hne hae hre
    have hie : ¬(conns.isEmpty = true) := by simp [List.isEmpty_iff, hne]
    have hlen : (get_active_connections (update_connection_capacity conns t ld).1 t).2.length
        = conns.length := by
      rw [get_active_snd_length, update_capacity_length]
    have h2ne : (get_active_connections (update_connection_capacity conns t ld).1 t).2 ≠ [] := by
      intro h0
      rw [h0] at hlen
      exact hne (List.eq_nil_of_length_eq_zero hlen.symm)
    obtain ⟨s, hs, hmem, hmax⟩ := select_fallback_spec _ h2ne
    unfold select_best_conn
    rw [if_neg hie]
    simp only [hae, hre, List.isEmpty_nil, ite_true]
    exact ⟨s, by rw [hs], hmem, hmax⟩
  · constructor
    · intro h
      by_contra hne
      have hie : ¬(conns.isEmpty = true) := by simp [List.isEmpty_iff, hne]
      unfold select_best_conn at h
      rw [if_neg hie] at h
      simp only [] at h
      have hlen :
          (get_active_connections (update_connection_capacity conns t ld).1 t).2.length
            = conns.length := by
        rw [get_active_snd_length, update_capacity_length]
      have h2ne :
          (get_active_connections (update_connection_capacity conns t ld).1 t).2 ≠ [] := by
        intro h0
        rw [h0] at hlen
        exact hne (List.eq_nil_of_length_eq_zero hlen.symm)
      split at h
      · split at h
        · obtain ⟨s, hs, _, _⟩ := select_fallback_spec _ h2ne
          simp [hs] at h
        · rename_i hR
          have hrne :
              get_recovery_connections
                (get_active_connections (update_connection_capacity conns t ld).1 t).2 ≠ [] :=
            fun hnil => hR (by rw [hnil]; rfl)
          obtain ⟨d, hd, heq⟩ :=
            select_load_some _ t (update_connection_capacity conns t ld).2 rr hrne
          simp [heq] at h
      · rename_i hA
        have hane :
            (get_active_connections (update_connection_capacity conns t ld).1 t).1 ≠ [] :=
          fun hnil => hA (by rw [hnil]; rfl)
        obtain ⟨d, hd, heq⟩ :=
          select_load_some _ t (update_connection_capacity conns t ld).2 rr hane
        simp [heq] at h
    · intro h
      subst h
      rfl

/-- Witness for C5 at a one-connection group whose connection is long stale. -/
theorem select_best_conn_fallback_spec_witness :
    ([connStale] : List SrtlaConn) ≠ [] ∧
    (get_active_connections (update_connection_capacity [connStale] 50 49).1 50).1 = [] ∧
    get_recovery_connections
      (get_active_connections (update_connection_capacity [connStale] 50 49).1 50).2 = [] ∧
    ∃ s, (select_best_conn [connStale] 50 49 3).1 = some s ∧
      s ∈ (get_active_connections (update_connection_capacity [connStale] 50 49).1 50).2 ∧
      ∀ c ∈ (get_active_connections (update_connection_capacity [connStale] 50 49).1 50).2,
        c.last_rcvd ≤ s.last_rcvd :=
  ⟨by decide, by decide, by decide,
    (select_best_conn_fallback_spec [connStale] 50 49 3).1 (by decide) (by decide) (by decide)⟩

/-- The utilization formula in the form the specification writes it: clamp
the elapsed time into [0.01 * 30, 30] and divide by 30; zero when there is no
capacity estimate; cap the ratio at 2. -/
def utilizationSpec (c : SrtlaConn) (t ld : Int) : ℚ :=
  let tf := max (3 / 10) (min ((t - ld : Int) : ℚ) 30) / 30
  if c.max_bytes_per_period = 0 then 0
  else min (((c.bytes_this_period : ℚ) / tf) / (c.max_bytes_per_period : ℚ)) 2

theorem timeFactor_eq (t ld : Int) :
    timeFactor t ld = max (3 / 10) (min ((t - ld : Int) : ℚ) 30) / 30 := by
  unfold timeFactor
  set x : ℚ := ((t - ld : Int) : ℚ) with hx
  rcases lt_or_le x (3 / 10) with h | h
  · have h30 : x ≤ 30 := by linarith
    rw [min_eq_right h30, if_pos (by linarith), min_eq_left h30, max_eq_left h.le]
    norm_num
  · rcases le_or_lt x 30 with h30 | h30
    · rw [min_eq_right h30, if_neg (by push_neg; linarith), min_eq_left h30, max_eq_right h]
    · rw [min_eq_left h30.le, if_neg (by norm_num), min_eq_right h30.le,
        max_eq_right (by norm_num : (3 : ℚ) / 10 ≤ 30)]

theorem cap2_eq_min (u : ℚ) : (if 2 < u then 2 else u) = min u 2 := by
  rcases lt_or_le 2 u with h | h
  · rw [if_pos h, min_eq_right h.le]
  · rw [if_neg (not_lt.mpr h), min_eq_left h]

theorem connUtilization_eq_spec (c : SrtlaConn) (t ld : Int) :
    connUtilization c (timeFactor t ld) = utilizationSpec c t ld := by
  rw [timeFactor_eq]
  unfold connUtilization utilizationSpec
  simp only []
  rcases Nat.eq_zero_or_pos c.max_bytes_per_period with h | h
  · have hnlt : ¬(0 < c.max_bytes_per_period) := by omega
    rw [if_neg hnlt, if_pos h]
  · have hne0 : ¬(c.max_bytes_per_period = 0) := by omega
    rw [if_pos h, if_neg hne0, cap2_eq_min]

/-- Behaviour claimed for the selector under capacity pressure, as one
predicate: the returned connection is the entry at index
(round_robin_counter mod max (1, n / 2)) of a utilization-ascending ordering
of the candidates (the counter having been incremented on entry), that
ordering is sorted and a permutation of the computed utilization list, and
the computed utilization agrees with the formula of the specification. -/
def CapacityPressureSpec (cands : List SrtlaConn) (t ld : Int) (rr : Nat) : Prop :=
  ∃ p : SrtlaConn × ℚ,
    (List.insertionSort uLE (calculate_conn_utilization cands t ld))[(rr + 1) %
        (if (calculate_conn_utilization cands t ld).length / 2 = 0 then 1
         else (calculate_conn_utilization cands t ld).length / 2)]? = some p ∧
    (select_connection_based_on_load cands t ld rr).1 = some (resetRecovery p.1) ∧
    List.Sorted uLE (List.insertionSort uLE (calculate_conn_utilization cands t ld)) ∧
    (List.insertionSort uLE (calculate_conn_utilization cands t ld)).Perm
      (calculate_conn_utilization cands t ld) ∧
    (calculate_conn_utilization cands t ld).length = cands.length ∧
    ∀ c ∈ cands, connUtilization c (timeFactor t ld) = utilizationSpec c t ld

/-- C3: whenever some candidate's utilization exceeds 0.7, the selector picks
the entry at index round_robin_counter mod max (1, n / 2) of the candidates
ordered by ascending utilization, where the utilization is the capped ratio
of time-scaled period bytes to the capacity estimate. -/
theorem select_under_capacity_pressure (cands : List SrtlaConn) (t ld : Int) (rr : Nat)
    (hne : cands ≠ [])
    (hcap : ∃ p ∈ calculate_conn_utilization cands t ld, (7 : ℚ) / 10 < p.2) :
    CapacityPressureSpec cands t ld rr := by
  obtain ⟨x, xs, rfl⟩ := List.exists_cons_of_ne_nil hne
  have hcu_ne : calculate_conn_utilization (x :: xs) t ld ≠ [] := by
    rw [calc_utilization_cons]
    simp
  have hany : ((calculate_conn_utilization (x :: xs) t ld).any
      fun p => decide ((7 : ℚ) / 10 < p.2)) = true := by
    rw [List.any_eq_true]
    obtain ⟨p, hp, hgt⟩ := hcap
    exact ⟨p, hp, by simpa using hgt⟩
  have hiecu : ¬((calculate_conn_utilization (x :: xs) t ld).isEmpty = true) := by
    simp [List.isEmpty_iff, hcu_ne]
  obtain ⟨p, hpq, hsel⟩ := select_capacity_mem (calculate_conn_utilization (x :: xs) t ld)
    (rr + 1) hcu_ne
  refine ⟨p, hpq, ?_, List.sorted_insertionSort uLE _, List.perm_insertionSort uLE _,
    ?_, fun c _ => connUtilization_eq_spec c t ld⟩
  · have hxe : ¬((x :: xs).isEmpty = true) := by simp
    unfold select_connection_based_on_load
    rw [if_neg hxe]
    simp only []
    rw [if_pos ⟨hany, hiecu⟩, hsel]
    rfl
  · rw [calc_utilization_cons]
    simp

/-- Connection with a capacity estimate of 10 bytes per period and 8 bytes
sent in the current period, used by concrete instantiations. -/
def connHot : SrtlaConn :=
  { SrtlaConn.mk0 3 0 with bytes_this_period := 8, max_bytes_per_period := 10 }

/-- Witness for C3 at a single saturated candidate fifteen seconds into the
period. -/
theorem select_under_capacity_pressure_witness :
    ([connHot] : List SrtlaConn) ≠ [] ∧
    (∃ p ∈ calculate_conn_utilization [connHot] 15 0, (7 : ℚ) / 10 < p.2) ∧
    CapacityPressureSpec [connHot] 15 0 4 := by
  have hcap : ∃ p ∈ calculate_conn_utilization [connHot] 15 0, (7 : ℚ) / 10 < p.2 := by
    refine ⟨(connHot, connUtilization connHot (timeFactor 15 0)), ?_, ?_⟩
    · simp [calculate_conn_utilization]
    · norm_num [connUtilization, timeFactor, connHot, SrtlaConn.mk0]
  exact ⟨by simp, hcap, select_under_capacity_pressure [connHot] 15 0 4 (by simp) hcap⟩

/-- Modelled from the spec: REG1 opcode (common.h). -/
def SRTLA_TYPE_REG1 : Nat := 0x9200

/-- Modelled from the spec: REG2 opcode (common.h). -/
def SRTLA_TYPE_REG2 : Nat := 0x9201

/-- Modelled from the spec: the 16-bit big-endian opcode in the first two
octets of an SRTLA packet (common.h). -/
def opcode16 (buf : List Nat) : Nat := buf.getD 0 0 * 256 + buf.getD 1 0

/-- Modelled from the spec: a REG1 is exactly 34 bytes with the REG1 opcode
(common.h). -/
def is_srtla_reg1 (buf : List Nat) : Bool :=
  buf.length == 34 && opcode16 buf == SRTLA_TYPE_REG1

/-- Modelled from the spec: a REG2 is exactly 34 bytes with the REG2 opcode
(common.h). -/
def is_srtla_reg2 (buf : List Nat) : Bool :=
  buf.length == 34 && opcode16 buf == SRTLA_TYPE_REG2

/-- Modelled from the spec: a KEEPALIVE is exactly 2 bytes with the KEEPALIVE
opcode (common.h). -/
def is_srtla_keepalive (buf : List Nat) : Bool :=
  buf.length == 2 && opcode16 buf == SRTLA_TYPE_KEEPALIVE

/-- Modelled from the spec: an SRT control packet has at least the 16-byte
header and the high bit of octet 0 set (common.h). -/
def is_srt_control (buf : List Nat) : Bool :=
  16 ≤ buf.length && 128 ≤ buf.getD 0 0

/-- Modelled from the spec: an SRT ACK is a control packet whose control
subtype is SRT_TYPE_ACK (common.h). -/
def is_srt_ack (buf : List Nat) : Bool :=
  is_srt_control buf && (buf.getD 0 0 % 128 * 256 + buf.getD 1 0) == SRT_TYPE_ACK

/-- Modelled from the spec: get_srt_sn returns the 31-bit big-endian sequence
number of an SRT data packet (high bit of octet 0 clear, length at least 16),
and -1 otherwise (common.h). -/
def get_srt_sn (buf : List Nat) : Int :=
  if 16 ≤ buf.length ∧ buf.getD 0 0 < 128 then
    ((buf.getD 0 0 % 128 * 2 ^ 24 + buf.getD 1 0 * 2 ^ 16 +
      buf.getD 2 0 * 2 ^ 8 + buf.getD 3 0 : Nat) : Int)
  else -1

/-- Big-endian composition of id bytes into the abstract id value. -/
def bytesToNat (l : List Nat) : Nat := l.foldl (fun acc b => acc * 256 + b) 0

/-- The control replies the registration handlers pass to sendto. -/
inductive Reply where
  | reg2 (gid : Nat × Nat)
  | reg3
  | regErr
  | regNgp
deriving Repr, DecidableEq

/-- Result of a registration handler: the new registry, the reply packet
passed to sendto (delivered or not), whether write_socket_info_file was
called, and the C return value. -/
structure RegResult where
  groups : Registry
  reply : Option Reply
  sidecar : Bool
  ret : Int
deriving Repr, DecidableEq

/-- group_find_by_id (main.cpp:115): index of the first group whose 32-byte
id matches under the constant-time compare. -/
def group_find_by_id : Registry → Nat × Nat → Option Nat
  | [], _ => none
  | g :: rest, gid =>
      if g.id = gid then some 0
      else (group_find_by_id rest gid).map (· + 1)

/-- Index of the first connection with the given peer address. -/
def findConnIdx : List SrtlaConn → Addr → Option Nat
  | [], _ => none
  | c :: rest, a =>
      if c.addr = a then some 0
      else (findConnIdx rest a).map (· + 1)

/-- group_find_by_addr (main.cpp:553): scan the groups in order; inside each
group first its connections, then its last_addr.  Returns the group index and
the matching connection index, if any.  Pointer identity is modelled by these
indices. -/
def group_find_by_addr : Registry → Addr → Option (Nat × Option Nat)
  | [], _ => none
  | g :: rest, a =>
      match findConnIdx g.conns a with
      | some ci => some (0, some ci)
      | none =>
          if g.last_addr = a then some (0, none)
          else (group_find_by_addr rest a).map (fun r => (r.1 + 1, r.2))

/-- register_group (main.cpp:643): refuse when the registry is full or the
source address is already known; otherwise build the group (client id half,
random server half, last_addr stamped), send REG2, and insert it only if the
send succeeded. -/
def register_group (groups : Registry) (a : Addr) (cid rid : Nat) (ts : Int)
    (sendOk : Bool) : RegResult :=
  if MAX_GROUPS ≤ groups.length then
    { groups := groups, reply := some .regErr, sidecar := false, ret := -1 }
  else
    match group_find_by_addr groups a with
    | some _ => { groups := groups, reply := some .regErr, sidecar := false, ret := -1 }
    | none =>
        let g : SrtlaConnGroup :=
          { id := (cid, rid), conns := [], created_at := ts, srt_sock := false, last_addr := a }
        if sendOk then
          { groups := groups ++ [g], reply := some (.reg2 (cid, rid)), sidecar := false,
            ret := 0 }
        else
          { groups := groups, reply := some (.reg2 (cid, rid)), sidecar := false, ret := -1 }

/-- Tail of conn_reg (main.cpp:697) after the id and address checks: for a new
address, check the group's capacity and build the connection; send REG3; only
on a successful send append the new connection, write the sidecar file and
stamp last_addr. -/
def connRegCont (groups : Registry) (gi : Nat) (g : SrtlaConnGroup) (a : Addr) (ts : Int)
    (sendOk : Bool) (ci : Option Nat) : RegResult :=
  match ci with
  | none =>
      if MAX_CONNS_PER_GROUP ≤ g.conns.length then
        { groups := groups, reply := some .regErr, sidecar := false, ret := -1 }
      else if sendOk then
        { groups := groups.set gi
            { g with conns := g.conns ++ [SrtlaConn.mk0 a ts], last_addr := a },
          reply := some .reg3, sidecar := true, ret := 0 }
      else { groups := groups, reply := some .reg3, sidecar := false, ret := -1 }
  | some _ =>
      if sendOk then
        { groups := groups.set gi { g with last_addr := a }, reply := some .reg3,
          sidecar := true, ret := 0 }
      else { groups := groups, reply := some .reg3, sidecar := false, ret := -1 }

/-- conn_reg (main.cpp:697): look the group up by id (REG_NGP when absent),
refuse an address already bound to a different group, then register the
connection. -/
def conn_reg (groups : Registry) (a : Addr) (gid : Nat × Nat) (ts : Int)
    (sendOk : Bool) : RegResult :=
  match group_find_by_id groups gid with
  | none => { groups := groups, reply := some .regNgp, sidecar := false, ret := -1 }
  | some gi =>
      match groups[gi]? with
      | none => { groups := groups, reply := none, sidecar := false, ret := -1 }
      | some g =>
          match group_find_by_addr groups a with
          | some (ti, ci) =>
              if ti ≠ gi then
                { groups := groups, reply := some .regErr, sidecar := false, ret := -1 }
              else connRegCont groups gi g a ts sendOk ci
          | none => connRegCont groups gi g a ts sendOk none

/-- Replace the first element satisfying the predicate. -/
def updateFirst {α : Type} (p : α → Bool) (f : α → α) : List α → List α
  | [] => []
  | x :: xs => if p x then f x :: xs else x :: updateFirst p f xs

/-- Run register_packet on the first connection with the given address,
collecting the ACK it sends. -/
def registerPacketIn : List SrtlaConn → Addr → Nat → List SrtlaConn × List (Addr × List Nat)
  | [], _, _ => ([], [])
  | c :: rest, src, sn =>
      if c.addr = src then
        ((register_packet c sn).1 :: rest,
          match (register_packet c sn).2 with
          | some pkt => [pkt]
          | none => [])
      else
        let r := registerPacketIn rest src sn
        (c :: r.1, r.2)

/-- Data-path tail of handle_srtla_data (main.cpp:842) once the source matched
a registered connection: stamp the connection's last_rcvd; echo keepalives;
drop short packets; otherwise stamp the group's last_addr, log a data sequence
number for ACKing, ensure the downstream socket and forward.  The fwdOk flag
collapses downstream-socket creation and forwarding: on failure the group is
destroyed (result none).  Returns the surviving group and the packets sent to
the client side. -/
def handle_matched_packet (g : SrtlaConnGroup) (src : Addr) (buf : List Nat) (ts : Int)
    (fwdOk : Bool) : Option SrtlaConnGroup × List (Addr × List Nat) :=
  let conns1 :=
    updateFirst (fun c => c.addr == src) (fun c => { c with last_rcvd := ts }) g.conns
  let g1 := { g with conns := conns1 }
  if is_srtla_keepalive buf then (some g1, [(src, buf)])
  else if buf.length < SRT_MIN_LEN then (some g1, [])
  else
    let g2 := { g1 with last_addr := src }
    let sn := get_srt_sn buf
    let pr := if 0 ≤ sn then registerPacketIn g2.conns src sn.toNat else (g2.conns, [])
    let g3 := { g2 with conns := pr.1, srt_sock := true }
    if fwdOk then (some g3, pr.2) else (none, pr.2)

/-- handle_srtla_data (main.cpp:818), registry view: dispatch REG1 and REG2 to
the registration handlers, otherwise route packets whose source matches a
registered connection through the data path; rid stands for the random server
id half drawn for a new group. -/
def handle_srtla_data (groups : Registry) (src : Addr) (buf : List Nat) (ts : Int)
    (rid : Nat) (sendOk fwdOk : Bool) : Registry :=
  if is_srtla_reg1 buf then
    (register_group groups src (bytesToNat ((buf.drop 2).take 16)) rid ts sendOk).groups
  else if is_srtla_reg2 buf then
    (conn_reg groups src
      (bytesToNat ((buf.drop 2).take 16), bytesToNat ((buf.drop 18).take 16)) ts
      sendOk).groups
  else
    match group_find_by_addr groups src with
    | some (gi, some _) =>
        match groups[gi]? with
        | none => groups
        | some g =>
            match (handle_matched_packet g src buf ts fwdOk).1 with
            | some g3 => groups.set gi g3
            | none => groups.eraseIdx gi
    | _ => groups

/-- handle_srt_data (main.cpp:754), registry view: a short read destroys the
group; an SRT ACK is broadcast (no registry change); any other packet goes
through the selector, whose connection-list update and byte accounting are
written back.  Returns the registry and the selector globals. -/
def handle_srt_data (groups : Registry) (gi : Nat) (buf : List Nat) (t ld : Int) (rr : Nat)
    (sendOk : Bool) : Registry × Int × Nat :=
  match groups[gi]? with
  | none => (groups, ld, rr)
  | some g =>
      if buf.length < SRT_MIN_LEN then (groups.eraseIdx gi, ld, rr)
      else if is_srt_ack buf then (groups, ld, rr)
      else
        let s := select_best_conn g.conns t ld rr
        match s.1 with
        | some best =>
            let conns2 :=
              if sendOk then
                applySel s.2.1 (some { best with
                  bytes_sent := best.bytes_sent + buf.length,
                  bytes_this_period := best.bytes_this_period + buf.length })
              else s.2.1
            (groups.set gi { g with conns := conns2 }, s.2.2.1, s.2.2.2)
        | none => (groups.set gi { g with conns := s.2.1 }, s.2.2.1, s.2.2.2)

/-- Per-connection pass of cleanup_groups_connections (main.cpp:941): drop
connections idle past 1.5 * CONN_TIMEOUT; for the kept ones idle past
CONN_TIMEOUT / 4 with fewer than 5 recovery attempts, send three keepalives
and bump the attempt counter.  Returns the kept connections and the keepalive
destinations in send order. -/
def cleanupConns : List SrtlaConn → Int → List SrtlaConn × List Addr
  | [], _ => ([], [])
  | c :: rest, ts =>
      let r := cleanupConns rest ts
      if c.last_rcvd + 3 * CONN_TIMEOUT / 2 < ts then (r.1, r.2)
      else if c.last_rcvd + CONN_TIMEOUT / 4 < ts ∧ c.recovery_attempts < 5 then
        ({ c with recovery_attempts := c.recovery_attempts + 1 } :: r.1,
          c.addr :: c.addr :: c.addr :: r.2)
      else (c :: r.1, r.2)

/-- cleanup_groups_connections (main.cpp:919): run the per-connection pass on
every group, then drop a group that ends up empty once past GROUP_TIMEOUT.
Returns the surviving registry and all keepalive destinations. -/
def cleanup_groups_connections : Registry → Int → Registry × List Addr
  | [], _ => ([], [])
  | g :: rest, ts =>
      let r := cleanup_groups_connections rest ts
      let pr := cleanupConns g.conns ts
      if pr.1 = [] ∧ g.created_at + GROUP_TIMEOUT < ts then (r.1, pr.2 ++ r.2)
      else ({ g with conns := pr.1 } :: r.1, pr.2 ++ r.2)

theorem set_getElem_self_eq {α : Type} (l : List α) (i : Nat) (h : i < l.length) :
    l.set i l[i] = l := by
  apply List.ext_getElem?
  intro n
  rw [List.getElem?_set]
  split
  · rename_i he
    subst he
    simp [List.getElem?_eq_getElem h]
  · rfl

theorem group_find_by_id_lt (groups : Registry) (gid : Nat × Nat) (gi : Nat)
    (h : group_find_by_id groups gid = some gi) : gi < groups.length := by
  induction groups generalizing gi with
  | nil => simp [group_find_by_id] at h
  | cons g rest ih =>
      simp only [group_find_by_id] at h
      by_cases he : g.id = gid
      · rw [if_pos he] at h
        injection h with h2
        subst h2
        simp
      · rw [if_neg he] at h
        cases hrec : group_find_by_id rest gid with
        | none => rw [hrec] at h; simp at h
        | some j =>
            rw [hrec] at h
            simp at h
            have := ih j hrec
            simp only [List.length_cons]
            omega

/-- C6: a REG1 from an address that address lookup already resolves to a
group is answered with REG_ERR and leaves the registry untouched: no group is
created or inserted and no field changes. -/
theorem register_group_addr_in_use (groups : Registry) (a : Addr) (cid rid : Nat)
    (ts : Int) (sendOk : Bool) (h : group_find_by_addr groups a ≠ none) :
    register_group groups a cid rid ts sendOk =
      { groups := groups, reply := some Reply.regErr, sidecar := false, ret := -1 } := by
  unfold register_group
  by_cases hfull : MAX_GROUPS ≤ groups.length
  · rw [if_pos hfull]
  · rw [if_neg hfull]
    split
    · rfl
    · rename_i hnone
      exact absurd hnone h

/-- Concrete one-group registry used by the counterexamples and witnesses:
one connection at address 1, last_addr 9. -/
def g0 : SrtlaConnGroup :=
  { id := (5, 6), conns := [SrtlaConn.mk0 1 0], created_at := 0, srt_sock := false,
    last_addr := 9 }

/-- Witness for C6: a second REG1 from the already-registered address 1. -/
theorem register_group_addr_in_use_witness :
    group_find_by_addr [g0] 1 ≠ none ∧
    register_group [g0] 1 11 12 5 true =
      { groups := [g0], reply := some Reply.regErr, sidecar := false, ret := -1 } :=
  ⟨by decide, register_group_addr_in_use [g0] 1 11 12 5 true (by decide)⟩

/-- C7: a REG2 whose id matches the group that the source address already
belongs to is answered with REG3 and inserts nothing: every group's
connection list is unchanged. -/
theorem conn_reg_idempotent (groups : Registry) (a : Addr) (gid : Nat × Nat) (ts : Int)
    (sendOk : Bool) (gi ci : Nat)
    (hid : group_find_by_id groups gid = some gi)
    (haddr : group_find_by_addr groups a = some (gi, some ci)) :
    (conn_reg groups a gid ts sendOk).reply = some Reply.reg3 ∧
    (conn_reg groups a gid ts sendOk).groups.map (fun g => g.conns) =
      groups.map (fun g => g.conns) := by
  have hlt : gi < groups.length := group_find_by_id_lt groups gid gi hid
  unfold conn_reg
  simp only [hid]
  rw [List.getElem?_eq_getElem hlt]
  simp only [haddr]
  rw [if_neg (fun hh : gi ≠ gi => hh rfl)]
  simp only [connRegCont]
  by_cases hs : sendOk
  · subst hs
    rw [if_pos rfl]
    refine ⟨rfl, ?_⟩
    rw [List.map_set]
    have hgl : gi < (groups.map (fun g => g.conns)).length := by simpa using hlt
    have hval : ({ groups[gi] with last_addr := a } : SrtlaConnGroup).conns
        = (groups.map (fun g => g.conns)).get ⟨gi, hgl⟩ := by
      simp [List.getElem_map]
    rw [hval]
    exact set_getElem_self_eq _ _ hgl
  · have hs2 : sendOk = false := by
      cases sendOk
      · rfl
      · exact absurd rfl hs
    subst hs2
    rw [if_neg (by simp)]
    exact ⟨rfl, rfl⟩

/-- Witness for C7: re-registering address 1 to its own group. -/
theorem conn_reg_idempotent_witness :
    group_find_by_id [g0] (5, 6) = some 0 ∧
    group_find_by_addr [g0] 1 = some (0, some 0) ∧
    (conn_reg [g0] 1 (5, 6) 8 true).reply = some Reply.reg3 ∧
    (conn_reg [g0] 1 (5, 6) 8 true).groups.map (fun g => g.conns) =
      ([g0] : Registry).map (fun g => g.conns) := by
  have h := conn_reg_idempotent [g0] 1 (5, 6) 8 true 0 0 (by decide) (by decide)
  exact ⟨by decide, by decide, h.1, h.2⟩

/-- The connection index of an address-lookup result (none when the address
is new). -/
def connIdxOf : Option (Nat × Option Nat) → Option Nat
  | some (_, ci) => ci
  | none => none

/-- C10: a REG2 that passes the id check, the address check and the capacity
check but whose REG3 send fails leaves the registry untouched, performs no
sidecar write, and returns the error code; the only output is the attempted
REG3. -/
theorem conn_reg_send_failure (groups : Registry) (a : Addr) (gid : Nat × Nat) (ts : Int)
    (gi : Nat)
    (hid : group_find_by_id groups gid = some gi)
    (hconf : ∀ ti x, group_find_by_addr groups a = some (ti, x) → ti = gi)
    (hcap : connIdxOf (group_find_by_addr groups a) = none →
      ∀ g, groups[gi]? = some g → g.conns.length < MAX_CONNS_PER_GROUP) :
    conn_reg groups a gid ts false =
      { groups := groups, reply := some Reply.reg3, sidecar := false, ret := -1 } := by
  have hlt : gi < groups.length := group_find_by_id_lt groups gid gi hid
  unfold conn_reg
  simp only [hid]
  rw [List.getElem?_eq_getElem hlt]
  cases hf : group_find_by_addr groups a with
  | none =>
      simp only [connRegCont]
      have hc := hcap (by rw [hf]; rfl) (groups[gi]) (List.getElem?_eq_getElem hlt)
      rw [if_neg (by omega)]
      rw [if_neg (by simp)]
  | some r =>
      obtain ⟨ti, ci⟩ := r
      have hti : ti = gi := hconf ti ci hf
      rw [hti]
      simp only []
      rw [if_neg (fun hh : gi ≠ gi => hh rfl)]
      cases ci with
      | some c =>
          simp only [connRegCont]
          rw [if_neg (by simp)]
      | none =>
          simp only [connRegCont]
          have hc := hcap (by rw [hf]; rfl) (groups[gi]) (List.getElem?_eq_getElem hlt)
          rw [if_neg (by omega)]
          rw [if_neg (by simp)]

/-- Witness for C10: REG2 from the new address 7 for the group of g0 with the
send failing. -/
theorem conn_reg_send_failure_witness :
    conn_reg [g0] 7 (5, 6) 9 false =
      { groups := [g0], reply := some Reply.reg3, sidecar := false, ret := -1 } := by
  have hn : group_find_by_addr [g0] 7 = none := by decide
  refine conn_reg_send_failure [g0] 7 (5, 6) 9 0 (by decide) ?_ ?_
  · intro ti x h
    rw [hn] at h
    exact Option.noConfusion h
  · intro _ g hg
    have : some g0 = some g := hg
    injection this with h2
    subst h2
    decide

theorem updateFirst_stamp (conns : List SrtlaConn) (src : Addr) (ts : Int)
    (h : ∃ c ∈ conns, c.addr = src) :
    ∃ c ∈ updateFirst (fun c => c.addr == src) (fun c => { c with last_rcvd := ts }) conns,
      c.addr = src ∧ c.last_rcvd = ts := by
  induction conns with
  | nil => obtain ⟨c, hc, _⟩ := h; simp at hc
  | cons x xs ih =>
      simp only [updateFirst]
      by_cases hx : x.addr = src
      · rw [if_pos (by simp [hx])]
        exact ⟨{ x with last_rcvd := ts }, List.mem_cons_self _ _, hx, rfl⟩
      · rw [if_neg (by simp [hx])]
        have h2 : ∃ c ∈ xs, c.addr = src := by
          obtain ⟨c, hc, hca⟩ := h
          rcases List.mem_cons.mp hc with rfl | hcc
          · exact absurd hca hx
          · exact ⟨c, hcc, hca⟩
        obtain ⟨c, hc, hca, hcl⟩ := ih h2
        exact ⟨c, List.mem_cons_of_mem _ hc, hca, hcl⟩

theorem register_packet_preserves (c : SrtlaConn) (sn : Nat) :
    (register_packet c sn).1.addr = c.addr ∧
    (register_packet c sn).1.last_rcvd = c.last_rcvd := by
  unfold register_packet
  simp only []
  split <;> exact ⟨rfl, rfl⟩

theorem registerPacketIn_keeps (conns : List SrtlaConn) (src : Addr) (sn : Nat) (ts : Int)
    (h : ∃ c ∈ conns, c.addr = src ∧ c.last_rcvd = ts) :
    ∃ c ∈ (registerPacketIn conns src sn).1, c.addr = src ∧ c.last_rcvd = ts := by
  induction conns with
  | nil => obtain ⟨c, hc, _⟩ := h; simp at hc
  | cons x xs ih =>
      simp only [registerPacketIn]
      by_cases hx : x.addr = src
      · rw [if_pos hx]
        obtain ⟨c, hc, hca, hcl⟩ := h
        rcases List.mem_cons.mp hc with rfl | hcc
        · obtain ⟨ha, hl⟩ := register_packet_preserves c sn
          exact ⟨(register_packet c sn).1, List.mem_cons_self _ _,
            ha.trans hca, hl.trans hcl⟩
        · exact ⟨c, List.mem_cons_of_mem _ hcc, hca, hcl⟩
      · rw [if_neg hx]
        obtain ⟨c, hc, hca, hcl⟩ := h
        rcases List.mem_cons.mp hc with rfl | hcc
        · exact absurd hca hx
        · obtain ⟨d, hd, hda, hdl⟩ := ih ⟨c, hcc, hca, hcl⟩
          exact ⟨d, List.mem_cons_of_mem _ hd, hda, hdl⟩

/-- Predicate of the amended C4: every matched packet stamps the matching
connection's last_rcvd; the group's last_addr is set to the source only for a
non-keepalive packet of at least SRT_MIN_LEN bytes, and on keepalives and
short packets the handler never destroys the group. -/
def MatchedUpdateSpec (g : SrtlaConnGroup) (src : Addr) (buf : List Nat) (ts : Int)
    (fwdOk : Bool) : Prop :=
  (∀ r, (handle_matched_packet g src buf ts fwdOk).1 = some r →
      (∃ c ∈ r.conns, c.addr = src ∧ c.last_rcvd = ts) ∧
      r.last_addr = (if is_srtla_keepalive buf ∨ buf.length < SRT_MIN_LEN
                     then g.last_addr else src)) ∧
  ((is_srtla_keepalive buf ∨ buf.length < SRT_MIN_LEN) →
    (handle_matched_packet g src buf ts fwdOk).1 ≠ none)

/-- C4 (amended): on a matched packet the handler always stamps the matching
connection's last_rcvd with the current time, but it updates g.last_addr to
the source address only when the packet is neither a keepalive nor shorter
than the 16-byte SRT minimum; for keepalives and short packets last_addr is
left unchanged. -/
theorem handle_matched_updates (g : SrtlaConnGroup) (src : Addr) (buf : List Nat)
    (ts : Int) (fwdOk : Bool) (hc : ∃ c ∈ g.conns, c.addr = src) :
    MatchedUpdateSpec g src buf ts fwdOk := by
  unfold MatchedUpdateSpec handle_matched_packet
  simp only []
  by_cases hk : is_srtla_keepalive buf = true
  · rw [if_pos hk]
    refine ⟨?_, ?_⟩
    · intro r hr
      injection hr with hr2
      subst hr2
      refine ⟨updateFirst_stamp g.conns src ts hc, ?_⟩
      rw [if_pos (Or.inl hk)]
    · intro _ h0
      exact Option.noConfusion h0
  · rw [if_neg hk]
    by_cases hs : buf.length < SRT_MIN_LEN
    · rw [if_pos hs]
      refine ⟨?_, ?_⟩
      · intro r hr
        injection hr with hr2
        subst hr2
        refine ⟨updateFirst_stamp g.conns src ts hc, ?_⟩
        rw [if_pos (Or.inr hs)]
      · intro _ h0
        exact Option.noConfusion h0
    · rw [if_neg hs]
      have hnor : ¬(is_srtla_keepalive buf = true ∨ buf.length < SRT_MIN_LEN) := by
        intro hor
        rcases hor with h1 | h1
        · exact hk h1
        · exact hs h1
      refine ⟨?_, fun hor => absurd hor hnor⟩
      intro r hr
      by_cases hf : fwdOk = true
      · rw [if_pos hf] at hr
        injection hr with hr2
        subst hr2
        constructor
        · by_cases hsn : 0 ≤ get_srt_sn buf
          · rw [if_pos hsn]
            exact registerPacketIn_keeps _ src _ ts (updateFirst_stamp g.conns src ts hc)
          · rw [if_neg hsn]
            exact updateFirst_stamp g.conns src ts hc
        · rw [if_neg hnor]
      · have hf2 : fwdOk = false := by
          cases fwdOk
          · rfl
          · exact absurd rfl hf
        subst hf2
        rw [if_neg (by simp)] at hr
        exact absurd hr (by simp)

/-- Counterexample to C4 as stated: a keepalive from registered address 1 is
matched and stamps last_rcvd, yet g.last_addr keeps its old value 9 instead
of being set to the source. -/
theorem handle_matched_keepalive_cex :
    ¬ ((handle_matched_packet g0 1 [144, 0] 5 true).1.map
        (fun r => r.last_addr) = some 1) ∧
    (handle_matched_packet g0 1 [144, 0] 5 true).1.map (fun r => r.last_addr) = some 9 ∧
    (handle_matched_packet g0 1 [144, 0] 5 true).1.map
      (fun r => r.conns.map (fun c => c.last_rcvd)) = some [5] := by decide

/-- Witness for the amended C4 at an SRT data packet of 16 bytes from
address 1. -/
theorem handle_matched_updates_witness :
    (∃ c ∈ g0.conns, c.addr = 1) ∧
    MatchedUpdateSpec g0 1 [0, 0, 0, 7, 0, 0, 0, 0, 0, 0, 0, 0, 0, 0, 0, 0] 5 true :=
  ⟨⟨SrtlaConn.mk0 1 0, by decide, by decide⟩,
    handle_matched_updates g0 1 [0, 0, 0, 7, 0, 0, 0, 0, 0, 0, 0, 0, 0, 0, 0, 0] 5 true
      ⟨SrtlaConn.mk0 1 0, by decide, by decide⟩⟩

/-- Per-connection cleanup as the claim states it: a connection survives iff
it is not idle past 1.5 * CONN_TIMEOUT; a surviving connection idle past
CONN_TIMEOUT / 4 with fewer than 5 recovery attempts gets its attempt counter
bumped. -/
def cleanupConnsSpec (conns : List SrtlaConn) (ts : Int) : List SrtlaConn :=
  (conns.filter (fun c => decide (¬ (c.last_rcvd + 3 * CONN_TIMEOUT / 2 < ts)))).map
    (fun c =>
      if c.last_rcvd + CONN_TIMEOUT / 4 < ts ∧ c.recovery_attempts < 5 then
        { c with recovery_attempts := c.recovery_attempts + 1 }
      else c)

/-- Keepalive traffic of a cleanup pass as the claim states it: exactly three
keepalives to each surviving connection that is in the recovery window. -/
def cleanupKeepalivesSpec (conns : List SrtlaConn) (ts : Int) : List Addr :=
  (conns.filter (fun c => decide (¬ (c.last_rcvd + 3 * CONN_TIMEOUT / 2 < ts) ∧
      c.last_rcvd + CONN_TIMEOUT / 4 < ts ∧ c.recovery_attempts < 5))).flatMap
    (fun c => [c.addr, c.addr, c.addr])

/-- A whole cleanup pass as the claim states it: the per-connection pass on
every group, and a group is dropped iff it ends up with no connections and
was created more than GROUP_TIMEOUT ago. -/
def cleanupSpec (groups : Registry) (ts : Int) : Registry × List Addr :=
  (groups.filterMap (fun g =>
      if cleanupConnsSpec g.conns ts = [] ∧ g.created_at + GROUP_TIMEOUT < ts then none
      else some { g with conns := cleanupConnsSpec g.conns ts }),
   groups.flatMap (fun g => cleanupKeepalivesSpec g.conns ts))

theorem cleanupConns_eq (conns : List SrtlaConn) (ts : Int) :
    cleanupConns conns ts = (cleanupConnsSpec conns ts, cleanupKeepalivesSpec conns ts) := by
  induction conns with
  | nil => rfl
  | cons c rest ih =>
      simp only [cleanupConns]
      by_cases h1 : c.last_rcvd + 3 * CONN_TIMEOUT / 2 < ts
      · rw [if_pos h1, ih]
        simp [cleanupConnsSpec, cleanupKeepalivesSpec, List.filter_cons, h1]
      · rw [if_neg h1]
        have h1b : ts ≤ c.last_rcvd + 3 * CONN_TIMEOUT / 2 := not_lt.mp h1
        by_cases h2 : c.last_rcvd + CONN_TIMEOUT / 4 < ts ∧ c.recovery_attempts < 5
        · rw [if_pos h2, ih]
          simp [cleanupConnsSpec, cleanupKeepalivesSpec, List.filter_cons, h1b, h2,
            h2.1, h2.2]
        · rw [if_neg h2, ih]
          by_cases hA : c.last_rcvd + CONN_TIMEOUT / 4 < ts
          · have hB : ¬ c.recovery_attempts < 5 := fun hb => h2 ⟨hA, hb⟩
            simp [cleanupConnsSpec, cleanupKeepalivesSpec, List.filter_cons, h1b, hA,
              hB, h2]
          · simp [cleanupConnsSpec, cleanupKeepalivesSpec, List.filter_cons, h1b, hA, h2]

/-- C8: a cleanup pass removes a connection iff last_rcvd + 1.5 * CONN_TIMEOUT
is before now; each surviving connection idle past CONN_TIMEOUT / 4 with fewer
than 5 recovery attempts receives exactly three keepalives and one attempt
increment; after the per-connection pass a group is removed iff its connection
set is empty and created_at + GROUP_TIMEOUT is before now. -/
theorem cleanup_groups_connections_spec (groups : Registry) (ts : Int) :
    cleanup_groups_connections groups ts = cleanupSpec groups ts := by
  induction groups with
  | nil => rfl
  | cons g rest ih =>
      simp only [cleanup_groups_connections]
      rw [cleanupConns_eq, ih]
      by_cases hg : cleanupConnsSpec g.conns ts = [] ∧ g.created_at + GROUP_TIMEOUT < ts
      · rw [if_pos hg]
        simp [cleanupSpec, List.filterMap_cons, hg]
      · rw [if_neg hg]
        simp only [cleanupSpec, List.filterMap_cons, List.flatMap_cons]
        rw [if_neg hg]

/-- The capacity invariant of the claim: at most MAX_GROUPS groups and at
most MAX_CONNS_PER_GROUP connections in each. -/
def CapsInv (gs : Registry) : Prop :=
  gs.length ≤ MAX_GROUPS ∧ ∀ g ∈ gs, g.conns.length ≤ MAX_CONNS_PER_GROUP

/-- One registry-mutating dispatch of the event loop: an inbound packet on
the listening socket, readiness of a group's downstream socket, a cleanup
pass, or the proactive ping (which only sends). -/
inductive ServerStep : Registry → Registry → Prop where
  | srtlaData (gs : Registry) (src : Addr) (buf : List Nat) (ts : Int) (rid : Nat)
      (sendOk fwdOk : Bool) :
      ServerStep gs (handle_srtla_data gs src buf ts rid sendOk fwdOk)
  | srtData (gs : Registry) (gi : Nat) (buf : List Nat) (t ld : Int) (rr : Nat)
      (sendOk : Bool) :
      ServerStep gs (handle_srt_data gs gi buf t ld rr sendOk).1
  | cleanup (gs : Registry) (ts : Int) :
      ServerStep gs (cleanup_groups_connections gs ts).1
  | ping (gs : Registry) : ServerStep gs gs

/-- Registries reachable from the empty initial registry by event-loop
dispatches. -/
inductive ReachableRegistry : Registry → Prop where
  | init : ReachableRegistry []
  | step {gs gs2 : Registry} :
      ReachableRegistry gs → ServerStep gs gs2 → ReachableRegistry gs2

theorem updateFirst_length {α : Type} (p : α → Bool) (f : α → α) (l : List α) :
    (updateFirst p f l).length = l.length := by
  induction l with
  | nil => rfl
  | cons x xs ih =>
      simp only [updateFirst]
      split
      · simp
      · simp [ih]

theorem registerPacketIn_length (conns : List SrtlaConn) (src : Addr) (sn : Nat) :
    (registerPacketIn conns src sn).1.length = conns.length := by
  induction conns with
  | nil => rfl
  | cons x xs ih =>
      simp only [registerPacketIn]
      split
      · simp
      · simp [ih]

theorem applySel_length (conns : List SrtlaConn) (s : Option SrtlaConn) :
    (applySel conns s).length = conns.length := by
  cases s
  · rfl
  · simp [applySel]

theorem select_best_conn_conns_length (conns : List SrtlaConn) (t ld : Int) (rr : Nat) :
    (select_best_conn conns t ld rr).2.1.length = conns.length := by
  unfold select_best_conn
  split
  · rfl
  · simp only []
    have hb : (get_active_connections (update_connection_capacity conns t ld).1 t).2.length
        = conns.length := by
      rw [get_active_snd_length, update_capacity_length]
    split
    · split
      · exact hb
      · simp only [applySel_length]
        exact hb
    · simp only [applySel_length]
      exact hb

theorem handle_matched_conns_length (g : SrtlaConnGroup) (src : Addr) (buf : List Nat)
    (ts : Int) (fwdOk : Bool) (r : SrtlaConnGroup)
    (h : (handle_matched_packet g src buf ts fwdOk).1 = some r) :
    r.conns.length = g.conns.length := by
  unfold handle_matched_packet at h
  simp only [] at h
  by_cases hk : is_srtla_keepalive buf = true
  · rw [if_pos hk] at h
    injection h with h2
    subst h2
    simp [updateFirst_length]
  · rw [if_neg hk] at h
    by_cases hs : buf.length < SRT_MIN_LEN
    · rw [if_pos hs] at h
      injection h with h2
      subst h2
      simp [updateFirst_length]
    · rw [if_neg hs] at h
      by_cases hf : fwdOk = true
      · rw [if_pos hf] at h
        injection h with h2
        subst h2
        by_cases hsn : 0 ≤ get_srt_sn buf
        · simp [if_pos hsn, registerPacketIn_length, updateFirst_length]
        · simp [if_neg hsn, updateFirst_length]
      · have hf2 : fwdOk = false := by
          cases fwdOk
          · rfl
          · exact absurd rfl hf
        subst hf2
        rw [if_neg (by simp)] at h
        exact absurd h (by simp)

theorem register_group_caps (groups : Registry) (a : Addr) (cid rid : Nat) (ts : Int)
    (sendOk : Bool) (h : CapsInv groups) :
    CapsInv (register_group groups a cid rid ts sendOk).groups := by
  unfold register_group
  by_cases hfull : MAX_GROUPS ≤ groups.length
  · rw [if_pos hfull]
    exact h
  · rw [if_neg hfull]
    split
    · exact h
    · cases sendOk
      · rw [if_neg (by simp)]
        exact h
      · rw [if_pos rfl]
        constructor
        · simp only [List.length_append, List.length_cons, List.length_nil]
          simp only [MAX_GROUPS] at hfull ⊢
          omega
        · intro g2 hg2
          rcases List.mem_append.mp hg2 with hh | hh
          · exact h.2 g2 hh
          · simp only [List.mem_singleton] at hh
            subst hh
            simp [MAX_CONNS_PER_GROUP]

theorem connRegCont_caps (groups : Registry) (gi : Nat) (g : SrtlaConnGroup) (a : Addr)
    (ts : Int) (sendOk : Bool) (ci : Option Nat) (h : CapsInv groups) (hg : g ∈ groups) :
    CapsInv (connRegCont groups gi g a ts sendOk ci).groups := by
  unfold connRegCont
  cases ci with
  | none =>
      simp only []
      by_cases hcap : MAX_CONNS_PER_GROUP ≤ g.conns.length
      · rw [if_pos hcap]
        exact h
      · rw [if_neg hcap]
        cases sendOk
        · rw [if_neg (by simp)]
          exact h
        · rw [if_pos rfl]
          constructor
          · simp [List.length_set, h.1]
          · intro g2 hg2
            rcases List.mem_or_eq_of_mem_set hg2 with hh | hh
            · exact h.2 g2 hh
            · subst hh
              simp only [List.length_append, List.length_cons, List.length_nil]
              simp only [MAX_CONNS_PER_GROUP] at hcap ⊢
              omega
  | some c0 =>
      simp only []
      cases sendOk
      · rw [if_neg (by simp)]
        exact h
      · rw [if_pos rfl]
        constructor
        · simp [List.length_set, h.1]
        · intro g2 hg2
          rcases List.mem_or_eq_of_mem_set hg2 with hh | hh
          · exact h.2 g2 hh
          · subst hh
            exact h.2 g hg

theorem conn_reg_caps (groups : Registry) (a : Addr) (gid : Nat × Nat) (ts : Int)
    (sendOk : Bool) (h : CapsInv groups) :
    CapsInv (conn_reg groups a gid ts sendOk).groups := by
  unfold conn_reg
  split
  · exact h
  · rename_i gi hgi
    split
    · exact h
    · rename_i g hget
      split
      · rename_i ti ci hf
        split
        · exact h
        · exact connRegCont_caps groups gi g a ts sendOk ci h (mem_of_getElemQ hget)
      · exact connRegCont_caps groups gi g a ts sendOk none h (mem_of_getElemQ hget)

theorem cleanupConns_length_le (conns : List SrtlaConn) (ts : Int) :
    (cleanupConns conns ts).1.length ≤ conns.length := by
  induction conns with
  | nil => simp [cleanupConns]
  | cons c rest ih =>
      simp only [cleanupConns]
      split
      · simp only [List.length_cons]
        omega
      · split
        · simp only [List.length_cons]
          omega
        · simp only [List.length_cons]
          omega

theorem cleanup_length_le (groups : Registry) (ts : Int) :
    (cleanup_groups_connections groups ts).1.length ≤ groups.length := by
  induction groups with
  | nil => simp [cleanup_groups_connections]
  | cons g rest ih =>
      simp only [cleanup_groups_connections]
      split
      · simp only [List.length_cons]
        omega
      · simp only [List.length_cons]
        omega

theorem cleanup_mem (groups : Registry) (ts : Int) (g2 : SrtlaConnGroup)
    (h : g2 ∈ (cleanup_groups_connections groups ts).1) :
    ∃ g ∈ groups, g2.conns = (cleanupConns g.conns ts).1 := by
  induction groups with
  | nil => simp [cleanup_groups_connections] at h
  | cons g rest ih =>
      simp only [cleanup_groups_connections] at h
      split at h
      · obtain ⟨g3, hg3, he⟩ := ih h
        exact ⟨g3, List.mem_cons_of_mem _ hg3, he⟩
      · rcases List.mem_cons.mp h with rfl | hh
        · exact ⟨g, List.mem_cons_self _ _, rfl⟩
        · obtain ⟨g3, hg3, he⟩ := ih hh
          exact ⟨g3, List.mem_cons_of_mem _ hg3, he⟩

theorem cleanup_caps (groups : Registry) (ts : Int) (h : CapsInv groups) :
    CapsInv (cleanup_groups_connections groups ts).1 :=
  ⟨le_trans (cleanup_length_le groups ts) h.1,
   fun g2 hg2 => by
     obtain ⟨g, hg, he⟩ := cleanup_mem groups ts g2 hg2
     rw [he]
     exact le_trans (cleanupConns_length_le g.conns ts) (h.2 g hg)⟩

theorem handle_srtla_data_caps (groups : Registry) (src : Addr) (buf : List Nat)
    (ts : Int) (rid : Nat) (sendOk fwdOk : Bool) (h : CapsInv groups) :
    CapsInv (handle_srtla_data groups src buf ts rid sendOk fwdOk) := by
  unfold handle_srtla_data
  by_cases h1 : is_srtla_reg1 buf = true
  · rw [if_pos h1]
    exact register_group_caps _ _ _ _ _ _ h
  · rw [if_neg h1]
    by_cases h2 : is_srtla_reg2 buf = true
    · rw [if_pos h2]
      exact conn_reg_caps _ _ _ _ _ h
    · rw [if_neg h2]
      split
      · rename_i gi ci hf
        split
        · exact h
        · rename_i g hget
          split
          · rename_i g3 heq
            constructor
            · simp [List.length_set, h.1]
            · intro gg hgg
              rcases List.mem_or_eq_of_mem_set hgg with hh | hh
              · exact h.2 gg hh
              · rw [hh]
                have hlen := handle_matched_conns_length g src buf ts fwdOk g3 heq
                rw [hlen]
                exact h.2 g (mem_of_getElemQ hget)
          · exact ⟨le_trans (List.length_eraseIdx_le _ _) h.1,
              fun gg hgg => h.2 gg (List.mem_of_mem_eraseIdx hgg)⟩
      · exact h

theorem handle_srt_data_caps (groups : Registry) (gi : Nat) (buf : List Nat) (t ld : Int)
    (rr : Nat) (sendOk : Bool) (h : CapsInv groups) :
    CapsInv (handle_srt_data groups gi buf t ld rr sendOk).1 := by
  unfold handle_srt_data
  split
  · exact h
  · rename_i g hget
    by_cases hs : buf.length < SRT_MIN_LEN
    · rw [if_pos hs]
      exact ⟨le_trans (List.length_eraseIdx_le _ _) h.1,
        fun gg hgg => h.2 gg (List.mem_of_mem_eraseIdx hgg)⟩
    · rw [if_neg hs]
      by_cases ha : is_srt_ack buf = true
      · rw [if_pos ha]
        exact h
      · rw [if_neg ha]
        simp only []
        split
        · rename_i best hbest
          constructor
          · simp [List.length_set, h.1]
          · intro gg hgg
            rcases List.mem_or_eq_of_mem_set hgg with hh | hh
            · exact h.2 gg hh
            · subst hh
              simp only []
              split
              · rw [applySel_length, select_best_conn_conns_length]
                exact h.2 g (mem_of_getElemQ hget)
              · rw [select_best_conn_conns_length]
                exact h.2 g (mem_of_getElemQ hget)
        · constructor
          · simp [List.length_set, h.1]
          · intro gg hgg
            rcases List.mem_or_eq_of_mem_set hgg with hh | hh
            · exact h.2 gg hh
            · subst hh
              simp only []
              rw [select_best_conn_conns_length]
              exact h.2 g (mem_of_getElemQ hget)

/-- C9: in every state reachable by event-loop dispatches from the empty
registry, every group holds at most MAX_CONNS_PER_GROUP = 16 connections and
the registry holds at most MAX_GROUPS = 200 groups; the registration handlers
refuse with REG_ERR at the caps and no other dispatch inserts groups or
connections. -/
theorem reachable_caps_invariant (gs : Registry) (h : ReachableRegistry gs) :
    CapsInv gs := by
  induction h with
  | init => exact ⟨by simp [MAX_GROUPS], by simp⟩
  | step hre hst ih =>
      cases hst with
        | srtlaData src buf ts rid sendOk fwdOk =>
            exact handle_srtla_data_caps _ _ _ _ _ _ _ ih
        | srtData gi buf t ld rr sendOk =>
            exact handle_srt_data_caps _ _ _ _ _ _ _ ih
        | cleanup ts => exact cleanup_caps _ _ ih
        | ping => exact ih

/-- Witness for C9 at the initial registry. -/
theorem reachable_caps_invariant_witness :
    ReachableRegistry ([] : Registry) ∧ CapsInv ([] : Registry) :=
  ⟨ReachableRegistry.init, reachable_caps_invariant [] ReachableRegistry.init⟩

end Srtla
